import Mathlib

/-!
Shallow embedding of the orion "hazardous" layer: the ChaCha20 engine from
`src/hazardous/chacha.rs` and the secret-material type framework from
`src/typedefs.rs`, together with proofs about them.

Bytes and 32-bit words are modelled as `Nat`, with an explicit reduction
modulo `2^32` wherever the source performs wrapping `u32` arithmetic.
Fallible Rust functions returning `Result<_, UnknownCryptoError>` are
modelled with `Except UnknownCryptoError _`; a Rust `panic` (an `unwrap()`
of an error, as opposed to a returned `Err`) is modelled by a dedicated
result constructor or by `Option.none`, so that returned errors and panics
stay distinguishable.
-/

/-- The single error type of the library (a fieldless struct in the source). -/
inductive UnknownCryptoError where
  | mk
deriving DecidableEq

namespace Chacha

/-- Size of the `u32` value space, `2^32`. -/
def U32LIM : Nat := 4294967296

/-- Model of `u32::wrapping_add`. -/
def wadd (a b : Nat) : Nat := (a + b) % U32LIM

/-- Model of `u32::rotate_left` (the source only uses rotations 16, 12, 8, 7). -/
def rotl32 (v r : Nat) : Nat :=
  Nat.lor ((v * 2 ^ r) % U32LIM) (v / 2 ^ (32 - r))

/-- Model of `InternalState::round`: a single round on indices `x`, `y`, `z`
with an `n_bit_rotation` left-rotation, on the 16-word state. -/
def round (x y z n_bit_rotation : Nat) (s : List Nat) : List Nat :=
  let s1 := s.set x (wadd (s.getD x 0) (s.getD z 0))
  let s2 := s1.set y (Nat.xor (s1.getD y 0) (s1.getD x 0))
  s2.set y (rotl32 (s2.getD y 0) n_bit_rotation)

/-- Model of `InternalState::quarter_round`: the ChaCha quarter round,
four `round` calls with rotations 16, 12, 8, 7. -/
def quarter_round (x y z w : Nat) (s : List Nat) : List Nat :=
  round z y w 7 (round x w y 8 (round z y w 12 (round x w y 16 s)))

/-- Model of `InternalState::process_inner_block`: four column quarter-rounds
followed by four diagonal quarter-rounds (one double round). -/
def process_inner_block (s : List Nat) : List Nat :=
  quarter_round 3 4 9 14 (quarter_round 2 7 8 13 (quarter_round 1 6 11 12
    (quarter_round 0 5 10 15 (quarter_round 3 7 11 15 (quarter_round 2 6 10 14
      (quarter_round 1 5 9 13 (quarter_round 0 4 8 12 s)))))))

/-- Model of `LittleEndian::read_u32` on a 4-byte chunk. -/
def read_u32_le (bs : List Nat) : Nat :=
  bs.getD 0 0 + 256 * bs.getD 1 0 + 65536 * bs.getD 2 0 + 16777216 * bs.getD 3 0

/-- Model of `slice::chunks(4)`: consecutive 4-byte chunks, the last chunk
possibly shorter. -/
def chunks4 : List Nat → List (List Nat)
  | [] => []
  | a :: b :: c :: d :: rest => [a, b, c, d] :: chunks4 rest
  | l => [l]

/-- Model of `InternalState::init_chacha20_state`: length-validate the key and
nonce, then build the 16-word state: four constants, eight little-endian key
words, the block counter, three little-endian nonce words. -/
def init_chacha20_state (key nonce : List Nat) (block_count : Nat) :
    Except UnknownCryptoError (List Nat) :=
  if key.length ≠ 32 then .error .mk
  else if nonce.length ≠ 12 then .error .mk
  else
    let buf0 : List Nat :=
      [0x61707865, 0x3320646e, 0x79622d32, 0x6b206574, 0, 0, 0, 0, 0, 0, 0, 0, 0, 0, 0, 0]
    let buf1 := ((chunks4 key).enum).foldl
      (fun b ic => b.set (ic.fst + 4) (read_u32_le ic.snd)) buf0
    let buf2 := buf1.set 12 block_count
    let buf3 := buf2.set 13 (read_u32_le (nonce.take 4))
    let buf4 := buf3.set 14 (read_u32_le ((nonce.drop 4).take 4))
    .ok (buf4.set 15 (read_u32_le ((nonce.drop 8).take 4)))

/-- Ten applications of `process_inner_block` (the `for _ in 0..10` loop). -/
def doubleRounds : Nat → List Nat → List Nat
  | 0, s => s
  | n + 1, s => doubleRounds n (process_inner_block s)

/-- Model of `InternalState::chacha20_block`: initialize (the source calls
`unwrap()` on the init result, so an invalid key or nonce length is a panic,
modelled as `none`), run 10 double rounds, then add the snapshot of the
initial state back word-by-word with wraparound. -/
def chacha20_block (key nonce : List Nat) (block_count : Nat) : Option (List Nat) :=
  match init_chacha20_state key nonce block_count with
  | .error _ => none
  | .ok s0 => some (List.zipWith wadd (doubleRounds 10 s0) s0)

/-- Little-endian serialization of one 32-bit word into 4 bytes. -/
def u32_to_le_bytes (w : Nat) : List Nat :=
  [w % 256, w / 256 % 256, w / 65536 % 256, w / 16777216 % 256]

/-- Model of `InternalState::serialize_state`: each of the 16 state words
written as 4 little-endian bytes, in order. (The destination-length check of
the source always passes in `chacha20_encrypt`, which calls it with a 64-byte
scratch buffer and `unwrap()`s the result.) -/
def serialize_state (s : List Nat) : List Nat :=
  (s.map u32_to_le_bytes).flatten

/-- Model of `u32::checked_add`. -/
def checked_add_u32 (a b : Nat) : Option Nat :=
  if a + b < U32LIM then some (a + b) else none

/-- Result of a call to the encrypt entry point. `ok`/`err` carry the final
content of the caller's destination buffer on a normal return; `panic` carries
the content of the destination buffer at the moment an `unwrap()` panicked. -/
inductive EncResult where
  | ok : List Nat → EncResult
  | err : List Nat → EncResult
  | panic : List Nat → EncResult
deriving DecidableEq

/-- Whether a call ended in a panic. -/
def EncResult.isPanic : EncResult → Bool
  | .panic _ => true
  | _ => false

/-- The destination-buffer content carried by a result. -/
def EncResult.buf : EncResult → List Nat
  | .ok d => d
  | .err d => d
  | .panic d => d

/-- The per-64-byte-chunk loop of `chacha20_encrypt`. For each chunk:
`initial_counter.checked_add(counter as u32).unwrap()` (panic on overflow;
the chunk index is truncated to `u32` by the `as u32` cast), the block
function (panic on invalid key/nonce length), serialization, byte-wise XOR of
the keystream with the plaintext chunk, and the write into the matching
destination chunk. `fuel` is a structural-recursion bound; every caller
passes `plaintext.length`, which dominates the chunk count. -/
def encrypt_chunks (fuel : Nat) (key nonce : List Nat) (initial_counter counter : Nat)
    (plaintext dst : List Nat) : EncResult :=
  match fuel with
  | 0 => .ok dst
  | fuel + 1 =>
    if plaintext.isEmpty then .ok dst
    else
      match checked_add_u32 initial_counter (counter % U32LIM) with
      | none => .panic dst
      | some chunk_counter =>
        match chacha20_block key nonce chunk_counter with
        | none => .panic dst
        | some st =>
          let keystream_block := serialize_state st
          let ciphertext_block := List.zipWith Nat.xor keystream_block (plaintext.take 64)
          match encrypt_chunks fuel key nonce initial_counter (counter + 1)
              (plaintext.drop 64) (dst.drop 64) with
          | .ok rest => .ok (ciphertext_block ++ rest)
          | .err rest => .err (ciphertext_block ++ rest)
          | .panic rest => .panic (ciphertext_block ++ rest)

/-- Model of the public `chacha20_encrypt`: length-mismatch check, then the
per-chunk loop over the zipped 64-byte chunks of plaintext and destination. -/
def chacha20_encrypt (key nonce : List Nat) (initial_counter : Nat)
    (plaintext dst_ciphertext : List Nat) : EncResult :=
  if plaintext.length ≠ dst_ciphertext.length then .err dst_ciphertext
  else encrypt_chunks plaintext.length key nonce initial_counter 0 plaintext dst_ciphertext

/-- Model of the public `chacha20_decrypt`: a direct delegation to
`chacha20_encrypt`. -/
def chacha20_decrypt (key nonce : List Nat) (initial_counter : Nat)
    (ciphertext dst_plaintext : List Nat) : EncResult :=
  chacha20_encrypt key nonce initial_counter ciphertext dst_plaintext

end Chacha

namespace Typedefs

/-- Constant `SHA512_OUTSIZE` from `src/hazardous/constants.rs`. -/
def SHA512_OUTSIZE : Nat := 64

/-- Model of `buf[..src.len()].copy_from_slice(src)`: overwrite the first
`src.length` bytes of `buf` with `src`, keeping the rest. (The source form
panics unless the two sides have equal length; callers below establish that.) -/
def copyToStart (buf src : List Nat) : List Nat := src ++ buf.drop src.length

/-- Model of the `from_slice` generated by `construct_hmac_key!`: start from a
zero-initialized fixed buffer of `size` bytes; a slice longer than `size` is
replaced by its SHA-512 digest (the external hash collaborator, passed here as
a function, with `?`-propagation of its error), copied into the first
`SHA512_OUTSIZE` bytes; a slice of at most `size` bytes is copied verbatim. -/
def hmac_key_from_slice (size : Nat)
    (digest : List Nat → Except UnknownCryptoError (List Nat))
    (slice : List Nat) : Except UnknownCryptoError (List Nat) :=
  let secret_key := List.replicate size 0
  if slice.length > size then
    match digest slice with
    | .error e => .error e
    | .ok d => .ok (copyToStart secret_key d)
  else
    .ok (copyToStart secret_key slice)

/-- Model of the key type generated by `construct_blake2b_key!`: the padded
`value` buffer of the macro's `size` parameter together with the recorded
`original_size`. -/
structure Blake2bSecretKey where
  value : List Nat
  original_size : Nat
deriving DecidableEq

/-- Model of the `from_slice` generated by `construct_blake2b_key!`: reject an
empty or longer-than-64-byte slice, else copy it left-aligned into a
zero-initialized `size`-byte buffer and record the pre-padding length. -/
def blake2b_key_from_slice (size : Nat) (slice : List Nat) :
    Except UnknownCryptoError Blake2bSecretKey :=
  if slice.length > 64 ∨ slice = [] then .error .mk
  else .ok { value := copyToStart (List.replicate size 0) slice,
             original_size := slice.length }

/-- Model of `get_original_length` on the BLAKE2b key type. -/
def Blake2bSecretKey.get_original_length (k : Blake2bSecretKey) : Nat :=
  k.original_size

/-- Model of `get_length` (the `func_get_length!` accessor, which reports the
length of the padded `value` storage). -/
def Blake2bSecretKey.get_length (k : Blake2bSecretKey) : Nat :=
  k.value.length

/-- Storage length of a successfully constructed BLAKE2b key, used to evaluate
the construction at concrete inputs. -/
def blake2bStorageLength : Except UnknownCryptoError Blake2bSecretKey → Option Nat
  | .ok k => some k.value.length
  | .error _ => none

/-- Model of the `generate` generated by `func_generate_variable_size!`: reject
`length < 1` and `length >= u32::max_value()`, else fill a `length`-byte
zero-initialized heap buffer from the CSPRNG collaborator (passed here as a
function, with `?`-propagation of its error) and return it. -/
def generate_variable_size
    (secure_rand_bytes : List Nat → Except UnknownCryptoError (List Nat))
    (length : Nat) : Except UnknownCryptoError (List Nat) :=
  if length < 1 ∨ 4294967295 ≤ length then .error .mk
  else secure_rand_bytes (List.replicate length 0)

/-- Model of the digest type generated by `construct_digest!`: the fixed-size
`value` storage together with the logical `digest_size`. -/
structure Blake2bDigest where
  value : List Nat
  digest_size : Nat
deriving DecidableEq

/-- Model of `as_bytes` on the digest type: the first `digest_size` bytes of
the storage. -/
def Blake2bDigest.as_bytes (d : Blake2bDigest) : List Nat :=
  d.value.take d.digest_size

/-- Model of `subtle`'s constant-time slice comparison `ct_eq`: false when the
lengths differ, otherwise an accumulated fold of bytewise equality with no
early exit. -/
def ct_eq (a b : List Nat) : Bool :=
  (a.length == b.length) && (List.zipWith (fun x y => x == y) a b).all (fun t => t)

/-- Model of the `PartialEq` generated by `construct_digest!`: constant-time
comparison of the two `as_bytes` views. -/
def Blake2bDigest.eq (d1 d2 : Blake2bDigest) : Bool :=
  ct_eq d1.as_bytes d2.as_bytes

/-- Model of the `from_slice` generated by `construct_digest!`: reject an empty
slice or one longer than the storage `size`, else copy it left-aligned into a
zero-initialized buffer and record its length as `digest_size`. -/
def blake2b_digest_from_slice (size : Nat) (slice : List Nat) :
    Except UnknownCryptoError Blake2bDigest :=
  if slice = [] ∨ size < slice.length then .error .mk
  else .ok { value := copyToStart (List.replicate size 0) slice,
             digest_size := slice.length }

end Typedefs

namespace Chacha

/-- A round preserves the length of the state. -/
theorem length_round (x y z r : Nat) (s : List Nat) :
    (round x y z r s).length = s.length := by
  simp [round, List.length_set]

/-- A quarter round preserves the length of the state. -/
theorem length_quarter_round (x y z w : Nat) (s : List Nat) :
    (quarter_round x y z w s).length = s.length := by
  simp [quarter_round, length_round]

/-- A double round preserves the length of the state. -/
theorem length_process_inner_block (s : List Nat) :
    (process_inner_block s).length = s.length := by
  simp [process_inner_block, length_quarter_round]

/-- Iterated double rounds preserve the length of the state. -/
theorem length_doubleRounds (n : Nat) (s : List Nat) :
    (doubleRounds n s).length = s.length := by
  induction n generalizing s with
  | zero => rfl
  | succ n ih => rw [doubleRounds, ih, length_process_inner_block]

/-- The key-word writing fold of `init_chacha20_state` preserves the length of
the buffer. -/
theorem length_foldl_set (l : List (Nat × List Nat)) (b : List Nat) :
    (l.foldl (fun b ic => b.set (ic.fst + 4) (read_u32_le ic.snd)) b).length
      = b.length := by
  induction l generalizing b with
  | nil => rfl
  | cons h t ih => rw [List.foldl_cons, ih, List.length_set]

/-- Initialization with an invalid key or nonce length fails. -/
theorem init_chacha20_state_invalid (key nonce : List Nat) (c : Nat)
    (h : key.length ≠ 32 ∨ nonce.length ≠ 12) :
    init_chacha20_state key nonce c = .error .mk := by
  unfold init_chacha20_state
  rcases h with h | h
  · rw [if_pos h]
  · by_cases hk : key.length ≠ 32
    · rw [if_pos hk]
    · rw [if_neg hk, if_pos h]

/-- Initialization with a valid key and nonce length succeeds with a 16-word
state. -/
theorem init_chacha20_state_valid (key nonce : List Nat) (c : Nat)
    (hk : key.length = 32) (hn : nonce.length = 12) :
    ∃ s, init_chacha20_state key nonce c = .ok s ∧ s.length = 16 := by
  unfold init_chacha20_state
  rw [if_neg (by simp [hk]), if_neg (by simp [hn])]
  exact ⟨_, rfl, by simp [List.length_set, length_foldl_set]⟩

/-- The block function panics (models the `unwrap()` of the init result) on an
invalid key or nonce length. -/
theorem chacha20_block_invalid (key nonce : List Nat) (c : Nat)
    (h : key.length ≠ 32 ∨ nonce.length ≠ 12) :
    chacha20_block key nonce c = none := by
  unfold chacha20_block
  rw [init_chacha20_state_invalid key nonce c h]

/-- The block function succeeds with a 16-word state on a valid key and nonce
length. -/
theorem chacha20_block_valid (key nonce : List Nat) (c : Nat)
    (hk : key.length = 32) (hn : nonce.length = 12) :
    ∃ st, chacha20_block key nonce c = some st ∧ st.length = 16 := by
  obtain ⟨s, hs, hlen⟩ := init_chacha20_state_valid key nonce c hk hn
  refine ⟨_, by rw [chacha20_block, hs], ?_⟩
  simp [List.length_zipWith, length_doubleRounds, hlen]

/-- Serialization produces 4 bytes per state word. -/
theorem length_serialize_state (s : List Nat) :
    (serialize_state s).length = 4 * s.length := by
  induction s with
  | nil => rfl
  | cons w ws ih =>
    simp only [serialize_state, List.map_cons, List.flatten_cons,
      List.length_append, List.length_cons] at ih ⊢
    simp [u32_to_le_bytes, ih]
    omega

/-- XOR with a fixed word is self-inverse. -/
theorem xor_xor_cancel (k x : Nat) : Nat.xor k (Nat.xor k x) = x := by
  show k ^^^ (k ^^^ x) = x
  rw [← Nat.xor_assoc, Nat.xor_self, Nat.zero_xor]

/-- XOR-ing a buffer twice against the same keystream restores it. -/
theorem zipWith_xor_cancel (ks l : List Nat) (h : l.length ≤ ks.length) :
    List.zipWith Nat.xor ks (List.zipWith Nat.xor ks l) = l := by
  induction ks generalizing l with
  | nil =>
    cases l with
    | nil => rfl
    | cons x xs => simp at h
  | cons k ks ih =>
    cases l with
    | nil => rfl
    | cons x xs =>
      simp only [List.zipWith_cons_cons, xor_xor_cancel]
      rw [ih xs (by simpa using h)]

end Chacha
namespace Chacha

/-- Lists with positive length are not nil, at the `Bool` level. -/
theorem isEmpty_false_of_ne_nil (l : List Nat) (h : l ≠ []) : l.isEmpty = false := by
  cases l with
  | nil => exact absurd rfl h
  | cons a as => rfl

/-- Splitting a 64-byte chunk off a concatenation when the head is either a
full chunk or a final short chunk. -/
theorem take_drop_chunk (a b : List Nat)
    (h : a.length = 64 ∨ (a.length ≤ 64 ∧ b = [])) :
    (a ++ b).take 64 = a ∧ (a ++ b).drop 64 = b := by
  rcases h with h | ⟨h, rfl⟩
  · constructor
    · rw [List.take_append_eq_append_take, h, Nat.sub_self, List.take_zero,
        List.append_nil, List.take_of_length_le (le_of_eq h)]
    · rw [List.drop_append_eq_append_drop, h, Nat.sub_self, List.drop_zero,
        List.drop_eq_nil_of_le (le_of_eq h), List.nil_append]
  · constructor
    · rw [List.append_nil, List.take_of_length_le h]
    · rw [List.append_nil, List.drop_eq_nil_of_le h]

/-- Round-trip of the chunk loop: on a valid key and nonce, equal-length
buffers and a counter range with no 32-bit overflow, encrypting and then
re-running the same loop on the result restores the plaintext. -/
theorem encrypt_chunks_roundtrip (fuel : Nat) :
    ∀ (key nonce pt dst dst2 : List Nat) (ic i : Nat),
      key.length = 32 → nonce.length = 12 →
      dst.length = pt.length → dst2.length = pt.length →
      (pt.length + 63) / 64 ≤ fuel →
      ic + i + (pt.length + 63) / 64 ≤ U32LIM →
      ∃ ct, encrypt_chunks fuel key nonce ic i pt dst = .ok ct ∧
            ct.length = pt.length ∧
            encrypt_chunks fuel key nonce ic i ct dst2 = .ok pt := by
  induction fuel with
  | zero =>
    intro key nonce pt dst dst2 ic i hk hn h1 h2 hfuel hc
    have hpt : pt = [] := List.eq_nil_of_length_eq_zero (by omega)
    have hd1 : dst = [] := List.eq_nil_of_length_eq_zero (by omega)
    have hd2 : dst2 = [] := List.eq_nil_of_length_eq_zero (by omega)
    subst hpt; subst hd1; subst hd2
    exact ⟨[], rfl, rfl, rfl⟩
  | succ fuel ih =>
    intro key nonce pt dst dst2 ic i hk hn h1 h2 hfuel hc
    by_cases hpt : pt.isEmpty
    · have hpt' : pt = [] := List.isEmpty_iff.mp hpt
      subst hpt'
      have hd1 : dst = [] := List.eq_nil_of_length_eq_zero (by simpa using h1)
      have hd2 : dst2 = [] := List.eq_nil_of_length_eq_zero (by simpa using h2)
      subst hd1; subst hd2
      exact ⟨[], by rw [encrypt_chunks]; rfl, rfl, by rw [encrypt_chunks]; rfl⟩
    · have hemp : pt.isEmpty = false := by simpa using hpt
      have hplen : 0 < pt.length := by
        cases pt with
        | nil => simp at hemp
        | cons p ps => simp
      have hctr : ic + i < U32LIM := by omega
      have hca : checked_add_u32 ic (i % U32LIM) = some (ic + i) := by
        rw [Nat.mod_eq_of_lt (by omega)]
        unfold checked_add_u32
        rw [if_pos hctr]
      obtain ⟨st, hst, hstlen⟩ := chacha20_block_valid key nonce (ic + i) hk hn
      have hks : (serialize_state st).length = 64 := by
        rw [length_serialize_state, hstlen]
      have hceil : (pt.length + 63) / 64 = (pt.length - 64 + 63) / 64 + 1 := by
        omega
      have hdlen : (pt.drop 64).length = pt.length - 64 := by simp
      obtain ⟨ctr, henc, hctlen, hdec⟩ :=
        ih key nonce (pt.drop 64) (dst.drop 64) (dst2.drop 64) ic (i + 1)
          hk hn (by simp [h1]) (by simp [h2])
          (by rw [hdlen]; omega)
          (by rw [hdlen]; omega)
      have hctlen' : ctr.length = pt.length - 64 := by
        rw [hctlen, List.length_drop]
      have hc1len : (List.zipWith Nat.xor (serialize_state st) (pt.take 64)).length
          = min 64 pt.length := by
        rw [List.length_zipWith, hks, List.length_take]
        omega
      have henc_step :
          encrypt_chunks (fuel + 1) key nonce ic i pt dst =
            .ok (List.zipWith Nat.xor (serialize_state st) (pt.take 64) ++ ctr) := by
        rw [encrypt_chunks]
        rw [hemp]
        simp only [Bool.false_eq_true, if_false, hca, hst, henc]
      have hctne : (List.zipWith Nat.xor (serialize_state st) (pt.take 64) ++ ctr) ≠ [] := by
        intro hcontra
        have hlc := congrArg List.length hcontra
        rw [List.length_append, hc1len, hctlen', List.length_nil] at hlc
        omega
      have hsplit :
          (List.zipWith Nat.xor (serialize_state st) (pt.take 64) ++ ctr).take 64
              = List.zipWith Nat.xor (serialize_state st) (pt.take 64) ∧
          (List.zipWith Nat.xor (serialize_state st) (pt.take 64) ++ ctr).drop 64
              = ctr := by
        apply take_drop_chunk
        by_cases hbig : 64 ≤ pt.length
        · left
          rw [hc1len]
          omega
        · right
          refine ⟨by rw [hc1len]; omega, ?_⟩
          exact List.eq_nil_of_length_eq_zero (by omega)
      have hcancel :
          List.zipWith Nat.xor (serialize_state st)
              (List.zipWith Nat.xor (serialize_state st) (pt.take 64)) = pt.take 64 := by
        apply zipWith_xor_cancel
        rw [hks, List.length_take]
        omega
      have hdec_step :
          encrypt_chunks (fuel + 1) key nonce ic i
              (List.zipWith Nat.xor (serialize_state st) (pt.take 64) ++ ctr) dst2 =
            .ok (pt.take 64 ++ pt.drop 64) := by
        rw [encrypt_chunks]
        rw [isEmpty_false_of_ne_nil _ hctne]
        simp only [Bool.false_eq_true, if_false, hca, hst, hsplit.1, hsplit.2, hdec, hcancel]
      refine ⟨List.zipWith Nat.xor (serialize_state st) (pt.take 64) ++ ctr,
        henc_step, ?_, ?_⟩
      · rw [List.length_append, hc1len, hctlen']
        omega
      · rw [hdec_step, List.take_append_drop]

end Chacha
namespace Chacha

/-- The `fuel` bound of `encrypt_chunks` is irrelevant as long as it dominates
the chunk count: any two sufficient bounds give the same result. -/
theorem encrypt_chunks_fuel_irrelevant (fuel : Nat) :
    ∀ (fuel2 : Nat) (key nonce pt dst : List Nat) (ic i : Nat),
      (pt.length + 63) / 64 ≤ fuel → (pt.length + 63) / 64 ≤ fuel2 →
      encrypt_chunks fuel key nonce ic i pt dst =
        encrypt_chunks fuel2 key nonce ic i pt dst := by
  induction fuel with
  | zero =>
    intro fuel2 key nonce pt dst ic i h1 h2
    have hpt : pt = [] := List.eq_nil_of_length_eq_zero (by omega)
    subst hpt
    cases fuel2 with
    | zero => rfl
    | succ f2 => simp [encrypt_chunks]
  | succ fuel ih =>
    intro fuel2 key nonce pt dst ic i h1 h2
    by_cases hemp : pt.isEmpty
    · have hpt : pt = [] := List.isEmpty_iff.mp hemp
      subst hpt
      cases fuel2 with
      | zero => simp [encrypt_chunks]
      | succ f2 => simp [encrypt_chunks]
    · have hemp2 : pt.isEmpty = false := by simpa using hemp
      have hplen : 0 < pt.length := by
        cases pt with
        | nil => simp at hemp2
        | cons p ps => simp
      have hchunks : 1 ≤ (pt.length + 63) / 64 := by omega
      cases fuel2 with
      | zero => omega
      | succ f2 =>
        have hceil : (pt.length + 63) / 64 = (pt.length - 64 + 63) / 64 + 1 := by
          omega
        have hdlen : (pt.drop 64).length = pt.length - 64 := by simp
        have hrec := ih f2 key nonce (pt.drop 64) (dst.drop 64) ic (i + 1)
          (by rw [hdlen]; omega) (by rw [hdlen]; omega)
        rw [encrypt_chunks]
        conv_rhs => rw [encrypt_chunks]
        rw [hemp2]
        cases hca : checked_add_u32 ic (i % U32LIM) with
        | none => simp
        | some cc => simp only [Bool.false_eq_true, if_false, hrec]

/-- Behaviour of the chunk loop when the 32-bit counter overflows before the
message ends: the loop panics at the overflowing chunk, the rest of the
destination is untouched, and the destination prefix before the overflowing
chunk holds exactly the ciphertext that encrypting just those chunks
produces. `U32LIM - ic - i` is the number of chunks that still fit. -/
theorem encrypt_chunks_overflow (fuel : Nat) :
    ∀ (key nonce pt dst : List Nat) (ic i : Nat),
      key.length = 32 → nonce.length = 12 →
      dst.length = pt.length →
      0 < ic → ic + i ≤ U32LIM →
      (pt.length + 63) / 64 ≤ fuel →
      64 * (U32LIM - ic - i) < pt.length →
      ∃ writ, encrypt_chunks fuel key nonce ic i pt dst =
                .panic (writ ++ dst.drop (64 * (U32LIM - ic - i))) ∧
              writ.length = 64 * (U32LIM - ic - i) ∧
              encrypt_chunks fuel key nonce ic i
                  (pt.take (64 * (U32LIM - ic - i)))
                  (dst.take (64 * (U32LIM - ic - i))) = .ok writ := by
  induction fuel with
  | zero =>
    intro key nonce pt dst ic i hk hn h1 hic hile hfuel hhit
    exact absurd hhit (by omega)
  | succ fuel ih =>
    intro key nonce pt dst ic i hk hn h1 hic hile hfuel hhit
    have hplen : 0 < pt.length := by omega
    have hemp : pt.isEmpty = false := by
      cases pt with
      | nil => simp at hplen
      | cons p ps => rfl
    have hilt : i < U32LIM := by omega
    by_cases hover : ic + i < U32LIM
    · -- this chunk still fits; process it and recurse
      have hk0 : 0 < U32LIM - ic - i := by omega
      have hca : checked_add_u32 ic (i % U32LIM) = some (ic + i) := by
        rw [Nat.mod_eq_of_lt hilt]
        unfold checked_add_u32
        rw [if_pos hover]
      obtain ⟨st, hst, hstlen⟩ := chacha20_block_valid key nonce (ic + i) hk hn
      have hks : (serialize_state st).length = 64 := by
        rw [length_serialize_state, hstlen]
      have hceil : (pt.length + 63) / 64 = (pt.length - 64 + 63) / 64 + 1 := by
        omega
      have hdlen : (pt.drop 64).length = pt.length - 64 := by simp
      obtain ⟨writ, hrec, hwlen, hok⟩ :=
        ih key nonce (pt.drop 64) (dst.drop 64) ic (i + 1)
          hk hn (by simp [h1]) hic (by omega)
          (by rw [hdlen]; omega) (by rw [hdlen]; omega)
      have hc1len : (List.zipWith Nat.xor (serialize_state st) (pt.take 64)).length
          = 64 := by
        rw [List.length_zipWith, hks, List.length_take]
        omega
      have hkshift : U32LIM - ic - (i + 1) = U32LIM - ic - i - 1 := by omega
      have hstep :
          encrypt_chunks (fuel + 1) key nonce ic i pt dst =
            .panic (List.zipWith Nat.xor (serialize_state st) (pt.take 64) ++
              (writ ++ (dst.drop 64).drop (64 * (U32LIM - ic - (i + 1))))) := by
        rw [encrypt_chunks]
        rw [hemp]
        simp only [Bool.false_eq_true, if_false, hca, hst, hrec]
      have htklen : (pt.take (64 * (U32LIM - ic - i))).length
          = 64 * (U32LIM - ic - i) := by
        rw [List.length_take]
        omega
      have htkne : pt.take (64 * (U32LIM - ic - i)) ≠ [] := by
        intro hcon
        have hlc := congrArg List.length hcon
        rw [htklen, List.length_nil] at hlc
        omega
      have htt : (pt.take (64 * (U32LIM - ic - i))).take 64 = pt.take 64 := by
        rw [List.take_take]
        congr 1
        omega
      have htd : (pt.take (64 * (U32LIM - ic - i))).drop 64 =
          (pt.drop 64).take (64 * (U32LIM - ic - (i + 1))) := by
        rw [List.drop_take]
        congr 1
        omega
      have hdd : (dst.take (64 * (U32LIM - ic - i))).drop 64 =
          (dst.drop 64).take (64 * (U32LIM - ic - (i + 1))) := by
        rw [List.drop_take]
        congr 1
        omega
      have hok_step :
          encrypt_chunks (fuel + 1) key nonce ic i
              (pt.take (64 * (U32LIM - ic - i)))
              (dst.take (64 * (U32LIM - ic - i))) =
            .ok (List.zipWith Nat.xor (serialize_state st) (pt.take 64) ++ writ) := by
        rw [encrypt_chunks]
        rw [isEmpty_false_of_ne_nil _ htkne]
        simp only [Bool.false_eq_true, if_false, hca, hst, htt, htd, hdd, hok]
      refine ⟨List.zipWith Nat.xor (serialize_state st) (pt.take 64) ++ writ,
        ?_, ?_, hok_step⟩
      · rw [hstep, List.drop_drop, List.append_assoc]
        have h64 : 64 + 64 * (U32LIM - ic - (i + 1)) = 64 * (U32LIM - ic - i) := by
          omega
        rw [h64]
      · rw [List.length_append, hc1len, hwlen, hkshift]
        omega
    · -- `checked_add` fails on this chunk: panic with the buffer untouched
      have hnone : checked_add_u32 ic (i % U32LIM) = none := by
        rw [Nat.mod_eq_of_lt hilt]
        unfold checked_add_u32
        rw [if_neg hover]
      have hz : U32LIM - ic - i = 0 := by omega
      refine ⟨[], ?_, by rw [hz, Nat.mul_zero]; rfl, ?_⟩
      · rw [encrypt_chunks]
        rw [hemp]
        simp only [Bool.false_eq_true, if_false, hnone, hz, Nat.mul_zero,
          List.drop_zero, List.nil_append]
      · rw [hz, Nat.mul_zero, List.take_zero, List.take_zero]
        simp [encrypt_chunks]
end Chacha
namespace Chacha

/-- Claim C1: for every 32-byte key, 12-byte nonce, initial 32-bit counter
that does not overflow across the message, and message of any length with
equal-length destination buffers, running `chacha20_encrypt` and then
`chacha20_decrypt` on its output returns the original message. -/
theorem chacha20_encrypt_decrypt_roundtrip (key nonce pt dst1 dst2 : List Nat) (ic : Nat)
    (hk : key.length = 32) (hn : nonce.length = 12)
    (h1 : dst1.length = pt.length) (h2 : dst2.length = pt.length)
    (hc : ic + (pt.length + 63) / 64 ≤ U32LIM) :
    ∃ ct, chacha20_encrypt key nonce ic pt dst1 = .ok ct ∧
          chacha20_decrypt key nonce ic ct dst2 = .ok pt := by
  obtain ⟨ct, henc, hlen, hdec⟩ :=
    encrypt_chunks_roundtrip pt.length key nonce pt dst1 dst2 ic 0
      hk hn h1 h2 (by omega) (by omega)
  refine ⟨ct, ?_, ?_⟩
  · unfold chacha20_encrypt
    rw [if_neg (by omega), henc]
  · unfold chacha20_decrypt chacha20_encrypt
    rw [if_neg (by omega), hlen, hdec]

/-- Concrete instance of the claim C1 theorem on a 3-byte message. -/
theorem chacha20_encrypt_decrypt_roundtrip_witness :
    ∃ ct, chacha20_encrypt (List.replicate 32 0) (List.replicate 12 0) 0
            [1, 2, 3] [0, 0, 0] = .ok ct ∧
          chacha20_decrypt (List.replicate 32 0) (List.replicate 12 0) 0
            ct [9, 9, 9] = .ok [1, 2, 3] :=
  chacha20_encrypt_decrypt_roundtrip (List.replicate 32 0) (List.replicate 12 0)
    [1, 2, 3] [0, 0, 0] [9, 9, 9] 0 (by simp) (by simp) (by simp) (by simp) (by decide)

set_option maxRecDepth 1000000 in
/-- Claim C2 counterexample: with initial counter `u32::MAX` and a 65-byte
all-zero message over an all-ones destination, the second chunk counter
overflows; the call does not return an error (it panics via `unwrap()`), and
by that time the first 64 destination bytes have already been overwritten
while the final byte still holds its original value. -/
theorem chacha20_encrypt_overflow_not_clean_error :
    chacha20_encrypt (List.replicate 32 0) (List.replicate 12 0) 4294967295
        (List.replicate 65 0) (List.replicate 65 1) ≠
      .err (List.replicate 65 1) ∧
    (chacha20_encrypt (List.replicate 32 0) (List.replicate 12 0) 4294967295
        (List.replicate 65 0) (List.replicate 65 1)).isPanic = true ∧
    (chacha20_encrypt (List.replicate 32 0) (List.replicate 12 0) 4294967295
        (List.replicate 65 0) (List.replicate 65 1)).buf.drop 64 = [1] ∧
    (chacha20_encrypt (List.replicate 32 0) (List.replicate 12 0) 4294967295
        (List.replicate 65 0) (List.replicate 65 1)).buf.take 64 ≠
      List.replicate 64 1 := by
  decide

/-- Claim C2 (amended): when the 32-bit addition `initial_counter + i`
overflows at some chunk index inside the message, `chacha20_encrypt` panics
(the `checked_add(...).unwrap()`) instead of returning an error; every chunk
before the overflowing one has already been written into the destination —
the destination prefix at panic time equals exactly the ciphertext that a
successful `chacha20_encrypt` of just those chunks produces — and the
destination from the overflowing chunk onward is untouched. -/
theorem chacha20_encrypt_overflow_panics (key nonce pt dst : List Nat) (ic : Nat)
    (hk : key.length = 32) (hn : nonce.length = 12)
    (h1 : dst.length = pt.length) (hic0 : 0 < ic) (hic : ic ≤ U32LIM)
    (hhit : 64 * (U32LIM - ic) < pt.length) :
    ∃ writ, chacha20_encrypt key nonce ic pt dst =
              .panic (writ ++ dst.drop (64 * (U32LIM - ic))) ∧
            writ.length = 64 * (U32LIM - ic) ∧
            chacha20_encrypt key nonce ic (pt.take (64 * (U32LIM - ic)))
                (dst.take (64 * (U32LIM - ic))) = .ok writ := by
  obtain ⟨writ, h, hw, hok⟩ :=
    encrypt_chunks_overflow pt.length key nonce pt dst ic 0 hk hn h1 hic0
      (by omega) (by omega) (by simpa using hhit)
  refine ⟨writ, ?_, by simpa using hw, ?_⟩
  · unfold chacha20_encrypt
    rw [if_neg (by omega)]
    simpa using h
  · unfold chacha20_encrypt
    rw [if_neg (by rw [List.length_take, List.length_take]; omega)]
    rw [encrypt_chunks_fuel_irrelevant (pt.take (64 * (U32LIM - ic))).length
      pt.length key nonce (pt.take (64 * (U32LIM - ic)))
      (dst.take (64 * (U32LIM - ic))) ic 0
      (by rw [List.length_take]; omega) (by rw [List.length_take]; omega)]
    simpa using hok

/-- Concrete instance of the amended claim C2 theorem. -/
theorem chacha20_encrypt_overflow_panics_witness :
    ∃ writ, chacha20_encrypt (List.replicate 32 0) (List.replicate 12 0) 4294967295
              (List.replicate 65 2) (List.replicate 65 3) =
              .panic (writ ++ (List.replicate 65 3).drop (64 * (U32LIM - 4294967295))) ∧
            writ.length = 64 * (U32LIM - 4294967295) ∧
            chacha20_encrypt (List.replicate 32 0) (List.replicate 12 0) 4294967295
                ((List.replicate 65 2).take (64 * (U32LIM - 4294967295)))
                ((List.replicate 65 3).take (64 * (U32LIM - 4294967295))) = .ok writ :=
  chacha20_encrypt_overflow_panics (List.replicate 32 0) (List.replicate 12 0)
    (List.replicate 65 2) (List.replicate 65 3) 4294967295
    (by simp) (by simp) (by simp) (by decide) (by decide) (by decide)

set_option maxRecDepth 1000000 in
/-- Claim C3: on the all-zero 32-byte key, all-zero 12-byte nonce and block
counter 0, the block function (initialize, snapshot, 10 double rounds,
wrapping feed-forward) followed by little-endian serialization yields exactly
the 64 published RFC 7539 keystream bytes. -/
theorem chacha20_block_rfc7539_zero_vector :
    (chacha20_block (List.replicate 32 0) (List.replicate 12 0) 0).map serialize_state =
      some [0x76, 0xb8, 0xe0, 0xad, 0xa0, 0xf1, 0x3d, 0x90, 0x40, 0x5d, 0x6a, 0xe5,
            0x53, 0x86, 0xbd, 0x28, 0xbd, 0xd2, 0x19, 0xb8, 0xa0, 0x8d, 0xed, 0x1a,
            0xa8, 0x36, 0xef, 0xcc, 0x8b, 0x77, 0x0d, 0xc7, 0xda, 0x41, 0x59, 0x7c,
            0x51, 0x57, 0x48, 0x8d, 0x77, 0x24, 0xe0, 0x3f, 0xb8, 0xd8, 0x4a, 0x37,
            0x6a, 0x43, 0xb8, 0xf4, 0x15, 0x18, 0xa1, 0x1c, 0xc3, 0x87, 0xb6, 0x69,
            0xb2, 0xee, 0x65, 0x86] := by
  decide

end Chacha
namespace Chacha

set_option maxRecDepth 1000000 in
/-- Claim C4: state initialization sets words 0-3 to the four ChaCha
constants, words 4-11 to the key read as eight little-endian 32-bit words,
word 12 to the counter, and words 13-15 to the nonce read as three
little-endian 32-bit words; any key slice whose length is not 32 or nonce
slice whose length is not 12 is rejected with the library error. -/
theorem init_chacha20_state_spec :
    (∀ (k0 k1 k2 k3 k4 k5 k6 k7 k8 k9 k10 k11 k12 k13 k14 k15
        k16 k17 k18 k19 k20 k21 k22 k23 k24 k25 k26 k27 k28 k29 k30 k31
        n0 n1 n2 n3 n4 n5 n6 n7 n8 n9 n10 n11 c : Nat),
      init_chacha20_state
          [k0, k1, k2, k3, k4, k5, k6, k7, k8, k9, k10, k11, k12, k13, k14, k15,
           k16, k17, k18, k19, k20, k21, k22, k23, k24, k25, k26, k27, k28, k29, k30, k31]
          [n0, n1, n2, n3, n4, n5, n6, n7, n8, n9, n10, n11] c =
        .ok [0x61707865, 0x3320646e, 0x79622d32, 0x6b206574,
             k0 + 256 * k1 + 65536 * k2 + 16777216 * k3,
             k4 + 256 * k5 + 65536 * k6 + 16777216 * k7,
             k8 + 256 * k9 + 65536 * k10 + 16777216 * k11,
             k12 + 256 * k13 + 65536 * k14 + 16777216 * k15,
             k16 + 256 * k17 + 65536 * k18 + 16777216 * k19,
             k20 + 256 * k21 + 65536 * k22 + 16777216 * k23,
             k24 + 256 * k25 + 65536 * k26 + 16777216 * k27,
             k28 + 256 * k29 + 65536 * k30 + 16777216 * k31,
             c,
             n0 + 256 * n1 + 65536 * n2 + 16777216 * n3,
             n4 + 256 * n5 + 65536 * n6 + 16777216 * n7,
             n8 + 256 * n9 + 65536 * n10 + 16777216 * n11]) ∧
    (∀ (key nonce : List Nat) (c : Nat),
      key.length ≠ 32 ∨ nonce.length ≠ 12 →
      init_chacha20_state key nonce c = .error .mk) := by
  constructor
  · intro k0 k1 k2 k3 k4 k5 k6 k7 k8 k9 k10 k11 k12 k13 k14 k15
      k16 k17 k18 k19 k20 k21 k22 k23 k24 k25 k26 k27 k28 k29 k30 k31
      n0 n1 n2 n3 n4 n5 n6 n7 n8 n9 n10 n11 c
    rfl
  · exact init_chacha20_state_invalid

/-- Concrete instances of the claim C4 theorem: the all-zero valid input, and
a rejected input of the wrong length. -/
theorem init_chacha20_state_spec_witness :
    init_chacha20_state
        [0, 0, 0, 0, 0, 0, 0, 0, 0, 0, 0, 0, 0, 0, 0, 0,
         0, 0, 0, 0, 0, 0, 0, 0, 0, 0, 0, 0, 0, 0, 0, 0]
        [0, 0, 0, 0, 0, 0, 0, 0, 0, 0, 0, 0] 7 =
      .ok [0x61707865, 0x3320646e, 0x79622d32, 0x6b206574,
           0, 0, 0, 0, 0, 0, 0, 0, 7, 0, 0, 0] ∧
    init_chacha20_state [] [] 7 = .error .mk :=
  ⟨init_chacha20_state_spec.1 0 0 0 0 0 0 0 0 0 0 0 0 0 0 0 0
      0 0 0 0 0 0 0 0 0 0 0 0 0 0 0 0 0 0 0 0 0 0 0 0 0 0 0 0 7,
   init_chacha20_state_spec.2 [] [] 7 (Or.inl (by decide))⟩

/-- Claim C5: mismatched input and output buffer lengths make
`chacha20_encrypt` fail with the library error and leave the destination
buffer unwritten. -/
theorem chacha20_encrypt_length_mismatch (key nonce pt dst : List Nat) (ic : Nat)
    (h : pt.length ≠ dst.length) :
    chacha20_encrypt key nonce ic pt dst = .err dst := by
  unfold chacha20_encrypt
  rw [if_pos h]

/-- Concrete instance of the claim C5 theorem. -/
theorem chacha20_encrypt_length_mismatch_witness :
    chacha20_encrypt [] [] 0 [1] [] = .err [] :=
  chacha20_encrypt_length_mismatch [] [] [1] [] 0 (by decide)

/-- Claim C10: the public encrypt entry performs no key/nonce length
validation of its own: with equal-length non-empty buffers and an invalid key
or nonce length, the internal initialization error is unwrapped inside the
block function and the call panics with the destination unwritten; with empty
buffers the chunk loop never runs and the call succeeds whatever the key and
nonce are. -/
theorem chacha20_encrypt_no_key_nonce_validation :
    (∀ (key nonce pt dst : List Nat) (ic : Nat),
        key.length ≠ 32 ∨ nonce.length ≠ 12 → pt ≠ [] → pt.length = dst.length →
        ic < U32LIM →
        chacha20_encrypt key nonce ic pt dst = .panic dst) ∧
    (∀ (key nonce : List Nat) (ic : Nat),
        chacha20_encrypt key nonce ic [] [] = .ok []) := by
  constructor
  · intro key nonce pt dst ic hbad hne hlen hic
    unfold chacha20_encrypt
    rw [if_neg (by omega)]
    obtain ⟨p, ps, rfl⟩ : ∃ p ps, pt = p :: ps := by
      cases pt with
      | nil => exact absurd rfl hne
      | cons p ps => exact ⟨p, ps, rfl⟩
    have hca : checked_add_u32 ic (0 % U32LIM) = some ic := by
      unfold checked_add_u32
      rw [Nat.zero_mod, Nat.add_zero, if_pos hic]
    have hblock := chacha20_block_invalid key nonce ic hbad
    simp only [List.length_cons]
    rw [encrypt_chunks]
    simp only [List.isEmpty_cons, Bool.false_eq_true, if_false, hca, hblock]
  · intro key nonce ic
    rfl

/-- Concrete instances of the claim C10 theorem: a 1-byte key panics on a
non-empty message, and any key and nonce succeed on an empty message. -/
theorem chacha20_encrypt_no_key_nonce_validation_witness :
    chacha20_encrypt [1] (List.replicate 12 0) 0 [5] [7] = .panic [7] ∧
    chacha20_encrypt [1] [2] 3 [] [] = .ok [] :=
  ⟨chacha20_encrypt_no_key_nonce_validation.1 [1] (List.replicate 12 0) [5] [7] 0
      (Or.inl (by decide)) (by decide) (by decide) (by decide),
   chacha20_encrypt_no_key_nonce_validation.2 [1] [2] 3⟩

end Chacha
namespace Typedefs

/-- Copying a slice onto a zero buffer leaves the slice followed by zero
padding. -/
theorem copyToStart_replicate (size : Nat) (src : List Nat) :
    copyToStart (List.replicate size 0) src =
      src ++ List.replicate (size - src.length) 0 := by
  rw [copyToStart, List.drop_replicate]

/-- Claim C6: the HMAC key builder copies a slice of at most the target size
verbatim, left-aligned into a zero-initialized buffer; a longer slice is
replaced by the external hash engine's digest, left-aligned into the
zero-initialized buffer; and construction fails only when the hash
collaborator fails. -/
theorem hmac_key_from_slice_spec (size : Nat)
    (digest : List Nat → Except UnknownCryptoError (List Nat)) (slice : List Nat)
    (hsize : SHA512_OUTSIZE ≤ size) :
    (slice.length ≤ size →
      hmac_key_from_slice size digest slice =
        .ok (slice ++ List.replicate (size - slice.length) 0)) ∧
    (∀ d, size < slice.length → digest slice = .ok d → d.length = SHA512_OUTSIZE →
      hmac_key_from_slice size digest slice =
        .ok (d ++ List.replicate (size - SHA512_OUTSIZE) 0)) ∧
    (∀ e, hmac_key_from_slice size digest slice = .error e →
      digest slice = .error e) := by
  refine ⟨?_, ?_, ?_⟩
  · intro hle
    rw [hmac_key_from_slice, if_neg (by omega), copyToStart_replicate]
  · intro d hgt hd hdl
    rw [hmac_key_from_slice, if_pos hgt, hd]
    simp only [copyToStart_replicate, hdl]
  · intro e he
    rw [hmac_key_from_slice] at he
    by_cases hgt : slice.length > size
    · rw [if_pos hgt] at he
      cases hdig : digest slice with
      | error e2 =>
        rw [hdig] at he
      | ok d =>
        rw [hdig] at he
        simp at he
    · rw [if_neg hgt] at he
      simp at he

set_option maxRecDepth 100000 in
/-- Concrete instances of the claim C6 theorem: a 2-byte key is zero-padded
verbatim, and a 129-byte key is replaced by the collaborator's digest,
zero-padded. -/
theorem hmac_key_from_slice_spec_witness :
    hmac_key_from_slice 128 (fun _ => .ok (List.replicate 64 7)) [1, 2] =
      .ok ([1, 2] ++ List.replicate (128 - [1, 2].length) 0) ∧
    hmac_key_from_slice 128 (fun _ => .ok (List.replicate 64 7)) (List.replicate 129 3) =
      .ok (List.replicate 64 7 ++ List.replicate (128 - SHA512_OUTSIZE) 0) :=
  ⟨(hmac_key_from_slice_spec 128 (fun _ => .ok (List.replicate 64 7)) [1, 2]
      (by decide)).1 (by decide),
   (hmac_key_from_slice_spec 128 (fun _ => .ok (List.replicate 64 7))
      (List.replicate 129 3) (by decide)).2.1 (List.replicate 64 7)
      (by decide) rfl rfl⟩

set_option maxRecDepth 10000 in
/-- Claim C7 counterexample: at the macro's storage size of 128 bytes (the
only size under which the padding and original-length tests generated by
`construct_blake2b_key!` itself pass, since they check `value[64..]` and
`get_length != get_original_length`), a 64-byte input is stored in a 128-byte
buffer, not in a 64-byte one as the claim states. -/
theorem blake2b_key_storage_is_not_64 :
    blake2bStorageLength (blake2b_key_from_slice 128 (List.replicate 64 1)) = some 128 ∧
    blake2bStorageLength (blake2b_key_from_slice 128 (List.replicate 64 1)) ≠ some 64 := by
  decide

/-- Claim C7 (amended): `from_slice` fails exactly when the input is empty or
longer than 64 bytes; otherwise it stores the input left-aligned in the
zero-padded fixed buffer of the macro's size parameter (128 bytes in the
library, strictly larger than 64), and `get_original_length` returns the
pre-padding input length, a value in 1-64, distinct from the padded storage
length. -/
theorem blake2b_key_from_slice_spec (size : Nat) (slice : List Nat)
    (hsize : 64 < size) :
    (blake2b_key_from_slice size slice = .error .mk ↔
      (slice = [] ∨ 64 < slice.length)) ∧
    (∀ k, blake2b_key_from_slice size slice = .ok k →
      k.value = slice ++ List.replicate (size - slice.length) 0 ∧
      k.get_original_length = slice.length ∧
      1 ≤ k.get_original_length ∧ k.get_original_length ≤ 64 ∧
      k.get_original_length ≠ k.get_length) := by
  constructor
  · by_cases hc : slice.length > 64 ∨ slice = []
    · rw [blake2b_key_from_slice, if_pos hc]
      constructor
      · intro hEq
        rcases hc with hc | hc
        · exact Or.inr hc
        · exact Or.inl hc
      · intro hArg
        rfl
    · rw [blake2b_key_from_slice, if_neg hc]
      constructor
      · intro h
        cases h
      · intro h
        rcases h with h | h
        · exact absurd (Or.inr h) hc
        · exact absurd (Or.inl h) hc
  · intro k hk
    rw [blake2b_key_from_slice] at hk
    by_cases hc : slice.length > 64 ∨ slice = []
    · rw [if_pos hc] at hk
      cases hk
    · rw [if_neg hc] at hk
      push_neg at hc
      have hpos : 0 < slice.length := List.length_pos.mpr hc.2
      cases hk
      refine ⟨copyToStart_replicate size slice, rfl, hpos, hc.1, ?_⟩
      simp only [Blake2bSecretKey.get_original_length, Blake2bSecretKey.get_length,
        copyToStart_replicate, List.length_append, List.length_replicate]
      omega

/-- Concrete instances of the amended claim C7 theorem: a 65-byte input is
rejected; a 1-byte input is stored zero-padded to 128 bytes with original
length 1, distinct from the storage length. -/
theorem blake2b_key_from_slice_spec_witness :
    blake2b_key_from_slice 128 (List.replicate 65 0) = .error .mk ∧
    ((Blake2bSecretKey.mk ([3] ++ List.replicate 127 0) 1).value =
        [3] ++ List.replicate (128 - [3].length) 0 ∧
      (Blake2bSecretKey.mk ([3] ++ List.replicate 127 0) 1).get_original_length =
        [3].length ∧
      1 ≤ (Blake2bSecretKey.mk ([3] ++ List.replicate 127 0) 1).get_original_length ∧
      (Blake2bSecretKey.mk ([3] ++ List.replicate 127 0) 1).get_original_length ≤ 64 ∧
      (Blake2bSecretKey.mk ([3] ++ List.replicate 127 0) 1).get_original_length ≠
        (Blake2bSecretKey.mk ([3] ++ List.replicate 127 0) 1).get_length) :=
  ⟨(blake2b_key_from_slice_spec 128 (List.replicate 65 0) (by decide)).1.mpr
      (Or.inr (by simp)),
   (blake2b_key_from_slice_spec 128 [3] (by decide)).2
      (Blake2bSecretKey.mk ([3] ++ List.replicate 127 0) 1) rfl⟩

end Typedefs
namespace Typedefs

/-- Claim C8 counterexample: a request for exactly `2^32 - 1` bytes is
rejected (the source tests `length >= u32::max_value()`), even under a CSPRNG
collaborator that never fails, whereas the claim says every length up to
`2^32 - 1` inclusive succeeds. -/
theorem generate_variable_size_max_rejected :
    generate_variable_size (fun b => .ok b) 4294967295 = .error .mk := rfl

/-- Claim C8 (amended): `generate(length)` fails exactly when `length` is 0 or
at least `2^32 - 1`; for every length from 1 to `2^32 - 2` inclusive it
succeeds (absent CSPRNG failure) with a buffer of exactly the requested
length. -/
theorem generate_variable_size_spec
    (secure_rand_bytes : List Nat → Except UnknownCryptoError (List Nat))
    (length : Nat)
    (hrand : ∀ b, ∃ v, secure_rand_bytes b = .ok v ∧ v.length = b.length) :
    ((∃ e, generate_variable_size secure_rand_bytes length = .error e) ↔
      (length = 0 ∨ 4294967295 ≤ length)) ∧
    (1 ≤ length → length < 4294967295 →
      ∃ v, generate_variable_size secure_rand_bytes length = .ok v ∧
           v.length = length) := by
  constructor
  · constructor
    · rintro ⟨e, he⟩
      by_contra hcon
      push_neg at hcon
      rw [generate_variable_size, if_neg (by omega)] at he
      obtain ⟨v, hv, hvl⟩ := hrand (List.replicate length 0)
      rw [hv] at he
      cases he
    · intro h
      exact ⟨.mk, by rw [generate_variable_size, if_pos (by omega)]⟩
  · intro h1 h2
    obtain ⟨v, hv, hvl⟩ := hrand (List.replicate length 0)
    refine ⟨v, ?_, by rw [hvl, List.length_replicate]⟩
    rw [generate_variable_size, if_neg (by omega), hv]

/-- Concrete instance of the amended claim C8 theorem at length 5 with an
identity CSPRNG collaborator. -/
theorem generate_variable_size_spec_witness :
    ((∃ e, generate_variable_size (fun b => .ok b) 5 = .error e) ↔
      (5 = 0 ∨ 4294967295 ≤ 5)) ∧
    ∃ v, generate_variable_size (fun b => .ok b) 5 = .ok v ∧ v.length = 5 :=
  have h := generate_variable_size_spec (fun b => .ok b) 5 (fun b => ⟨b, rfl, rfl⟩)
  ⟨h.1, h.2 (by decide) (by decide)⟩

/-- Constant-time slice comparison agrees with list equality. -/
theorem ct_eq_iff (a b : List Nat) : ct_eq a b = true ↔ a = b := by
  induction a generalizing b with
  | nil =>
    cases b with
    | nil => simp [ct_eq]
    | cons y ys => simp [ct_eq]
  | cons x xs ih =>
    cases b with
    | nil => simp [ct_eq]
    | cons y ys =>
      have h := ih ys
      simp only [ct_eq, List.length_cons, List.zipWith_cons_cons, List.all_cons,
        Bool.and_eq_true, beq_iff_eq, List.cons.injEq] at h ⊢
      constructor
      · rintro ⟨hl, hx, hall⟩
        exact ⟨hx, h.mp ⟨by omega, hall⟩⟩
      · rintro ⟨hx, hys⟩
        obtain ⟨hl, hall⟩ := h.mpr hys
        exact ⟨by omega, hx, hall⟩

/-- Claim C9: digest equality depends only on the logical first `digest_size`
bytes of each digest — storage bytes beyond the logical length never
influence the comparison — and `as_bytes` returns exactly the first
`digest_size` bytes. -/
theorem blake2b_digest_eq_logical_only (v1 v1' v2 : List Nat) (s1 s2 : Nat)
    (h : v1.take s1 = v1'.take s1) :
    Blake2bDigest.eq ⟨v1, s1⟩ ⟨v2, s2⟩ = Blake2bDigest.eq ⟨v1', s1⟩ ⟨v2, s2⟩ ∧
    (Blake2bDigest.eq ⟨v1, s1⟩ ⟨v2, s2⟩ = true ↔ v1.take s1 = v2.take s2) ∧
    Blake2bDigest.as_bytes ⟨v1, s1⟩ = v1.take s1 := by
  refine ⟨?_, ?_, rfl⟩
  · simp only [Blake2bDigest.eq, Blake2bDigest.as_bytes]
    rw [h]
  · simp only [Blake2bDigest.eq, Blake2bDigest.as_bytes]
    exact ct_eq_iff (v1.take s1) (v2.take s2)

/-- Concrete instance of the claim C9 theorem: two digests that differ only in
a padding byte beyond the logical length compare identically against a third
digest. -/
theorem blake2b_digest_eq_logical_only_witness :
    Blake2bDigest.eq ⟨[1, 2, 9], 2⟩ ⟨[1, 2, 3], 2⟩ =
      Blake2bDigest.eq ⟨[1, 2, 0], 2⟩ ⟨[1, 2, 3], 2⟩ ∧
    (Blake2bDigest.eq ⟨[1, 2, 9], 2⟩ ⟨[1, 2, 3], 2⟩ = true ↔
      [1, 2, 9].take 2 = [1, 2, 3].take 2) ∧
    Blake2bDigest.as_bytes ⟨[1, 2, 9], 2⟩ = [1, 2, 9].take 2 :=
  blake2b_digest_eq_logical_only [1, 2, 9] [1, 2, 0] [1, 2, 3] 2 2 (by decide)

end Typedefs
